import Mathlib

/-!
Shallow embedding of the fitness-tracker web application (Dashboard,
Goals and WorkoutForm components) and proofs about its client-side
computations.

Conventions of the embedding:

* JavaScript numbers are modelled by exact rationals (`ℚ`), extended with
  the special values `Infinity`, `-Infinity` and `NaN` (`JNum`) where a
  computation can produce them.  IEEE-754 rounding of doubles is not
  modelled; every concrete input appearing in the statements is exactly
  representable and every modelled operation is exact on it.
* JavaScript strings are modelled by Lean `String` / `List Char`;
  `toLowerCase` is modelled character-wise, which agrees with JS on the
  ASCII data the application handles.
* Asynchronous store calls are modelled by an explicit environment that
  says which requests succeed and with which rows; a component handler
  becomes a pure function from that environment (and the previous view
  state) to the resulting view state and the list of issued writes.
-/

/-! ## JavaScript number semantics (exact-rational model) -/

/-- A JavaScript number: a finite value (exact rational), a signed
infinity, or `NaN`. -/
inductive JNum where
  | num (q : ℚ)
  | posInf
  | negInf
  | nan
deriving DecidableEq

/-- JS division `a / b` of finite numbers: division by zero yields a signed
infinity (or `NaN` for `0 / 0`); otherwise the exact quotient. -/
def jsDiv (a b : ℚ) : JNum :=
  if b = 0 then
    if a = 0 then JNum.nan
    else if 0 < a then JNum.posInf
    else JNum.negInf
  else JNum.num (a / b)

/-- JS multiplication of a number by a positive finite constant (the code
only multiplies by the literal `100`): infinities keep their sign, `NaN`
propagates. -/
def jsMulPos (x : JNum) (k : ℚ) : JNum :=
  match x with
  | JNum.num a => JNum.num (a * k)
  | JNum.posInf => JNum.posInf
  | JNum.negInf => JNum.negInf
  | JNum.nan => JNum.nan

/-- JS `Math.min` on two numbers: `NaN` absorbs, otherwise the usual order
with `-Infinity < finite < Infinity`. -/
def jsMin (x y : JNum) : JNum :=
  match x, y with
  | JNum.nan, _ => JNum.nan
  | _, JNum.nan => JNum.nan
  | JNum.negInf, _ => JNum.negInf
  | _, JNum.negInf => JNum.negInf
  | JNum.posInf, z => z
  | z, JNum.posInf => z
  | JNum.num a, JNum.num b => JNum.num (min a b)

/-! ## Goals component -/

/-- A goal row as held by the Goals component (the fields `getProgress`
reads, plus the `achieved` flag used by the Dashboard query). -/
structure Goal where
  target_value : ℚ
  current_value : ℚ
  achieved : Bool
deriving DecidableEq

/-- The Goals component's `getProgress`:
`Math.min((goal.current_value / goal.target_value) * 100, 100)`. -/
def getProgress (goal : Goal) : JNum :=
  jsMin (jsMulPos (jsDiv goal.current_value goal.target_value) 100) (JNum.num 100)

/-- Modelled from the spec:  the spec describes the displayed progress as
`clamp(current/target*100, 0, 100)`.  Spec-side definition used only for
comparison with the source-side `getProgress`. -/
def clampSpec (current target : ℚ) : ℚ :=
  max 0 (min (current / target * 100) 100)

/-! ## Dashboard component -/

/-- A workout row as read by the Dashboard: the date (a timestamp on an
integer millisecond timeline, as compared by `new Date(w.date) >= weekAgo`)
and the duration in minutes. -/
structure DWorkout where
  date : ℤ
  duration_minutes : ℤ
deriving DecidableEq

/-- Milliseconds per day; `weekAgo.setDate(weekAgo.getDate() - 7)` moves
`now` back by seven days on the timeline. -/
def msPerDay : ℤ := 86400000

/-- The Dashboard weekly filter predicate `new Date(w.date) >= weekAgo`
with `weekAgo = now - 7 days` (inclusive comparison). -/
def inWeeklyRange (now : ℤ) (w : DWorkout) : Bool :=
  decide (now - 7 * msPerDay ≤ w.date)

/-- JS `(d || 0)` on an integer duration: `0` is falsy and maps to `0`,
every other integer is truthy and kept. -/
def jsOrZeroInt (d : ℤ) : ℤ :=
  if d = 0 then 0 else d

/-- The Dashboard `totalMinutes` reduction:
`workouts.reduce((sum, w) => sum + (w.duration_minutes || 0), 0)`. -/
def totalMinutes (ws : List DWorkout) : ℤ :=
  ws.foldl (fun sum w => sum + jsOrZeroInt w.duration_minutes) 0

/-- The Dashboard `weeklyWorkouts` stat:
`workouts.filter(w => new Date(w.date) >= weekAgo).length`. -/
def weeklyWorkouts (now : ℤ) (ws : List DWorkout) : ℕ :=
  (ws.filter (inWeeklyRange now)).length

/-- The Dashboard stats state (`DashboardStats`). -/
structure DashStats where
  totalWorkouts : ℕ
  totalMinutes : ℤ
  activeGoals : ℕ
  weeklyWorkouts : ℕ
deriving DecidableEq

/-- The zero-initialized stats state of the Dashboard. -/
def zeroStats : DashStats :=
  ⟨0, 0, 0, 0⟩

/-- The stats computed by `loadDashboardData` from successfully fetched
workouts and (already achieved-filtered) goals. -/
def computeStats (now : ℤ) (ws : List DWorkout) (gs : List Goal) : DashStats :=
  ⟨ws.length, totalMinutes ws, gs.length, weeklyWorkouts now ws⟩

/-- Outcome environment for one run of `loadDashboardData`: the result of
the workouts fetch, of the goals fetch (`none` = the request failed and the
handler threw into the `catch`), and whether the recent-workouts fetch
succeeded. -/
structure DashEnv where
  workoutsRes : Option (List DWorkout)
  goalsRes : Option (List Goal)
  recentOk : Bool

/-- The stats state after one run of `loadDashboardData` against `env`,
starting from `prev`.  The source throws to a logging `catch` on the first
failed fetch; `setStats` runs after the workouts and goals fetches and
before the recent-workouts fetch, so a failure of the latter does not
affect the already-written stats. -/
def loadDashboardStats (now : ℤ) (env : DashEnv) (prev : DashStats) : DashStats :=
  match env.workoutsRes with
  | none => prev
  | some ws =>
    match env.goalsRes with
    | none => prev
    | some gs => computeStats now ws gs

/-! ## WorkoutForm component: in-memory exercise list -/

/-- An exercise-catalog row. -/
structure Exercise where
  id : String
  name : String
  category : String
  muscle_groups : List String
deriving DecidableEq

/-- A `WorkoutExercise` entry of the form state: a set count and the
parallel per-set `reps` and `weight` arrays. -/
structure WorkoutExercise where
  exercise_id : String
  exercise_name : String
  sets : ℕ
  reps : List ℚ
  weight : List ℚ
  rest_seconds : ℚ
  notes : String
deriving DecidableEq

/-- The entry built by `addExercise` for a picked catalog exercise:
3 sets, reps `[10, 10, 10]`, weight `[0, 0, 0]`, 60 s rest. -/
def mkWorkoutExercise (exercise : Exercise) : WorkoutExercise :=
  ⟨exercise.id, exercise.name, 3, [10, 10, 10], [0, 0, 0], 60, ""⟩

/-- The handler `addExercise`: appends the seeded entry to the form's exercise list. -/
def addExercise (exercise : Exercise) (s : List WorkoutExercise) : List WorkoutExercise :=
  s ++ [mkWorkoutExercise exercise]

/-- Replace the element at an index by its image under `f` (the source
copies the array and mutates one slot); out-of-range indices leave the
list unchanged and are never produced by the rendered buttons. -/
def listModify {α : Type} : List α → ℕ → (α → α) → List α
  | [], _, _ => []
  | e :: rest, 0, f => f e :: rest
  | e :: rest, Nat.succ n, f => e :: listModify rest n f

/-- JS `(xs[xs.length - 1] || d)`: the last element when it exists and is
truthy (nonzero), otherwise the fallback `d`. -/
def jsOrFallback (lastElem : Option ℚ) (d : ℚ) : ℚ :=
  match lastElem with
  | none => d
  | some v => if v = 0 then d else v

/-- The per-entry effect of `addSet`: increment `sets`, push a copy of the
last rep (fallback 10) and of the last weight (fallback 0). -/
def addSetEntry (e : WorkoutExercise) : WorkoutExercise :=
  ⟨e.exercise_id, e.exercise_name, e.sets + 1,
    e.reps ++ [jsOrFallback e.reps.getLast? 10],
    e.weight ++ [jsOrFallback e.weight.getLast? 0],
    e.rest_seconds, e.notes⟩

/-- The handler `addSet` on the form state. -/
def addSet (i : ℕ) (s : List WorkoutExercise) : List WorkoutExercise :=
  listModify s i addSetEntry

/-- The per-entry effect of `removeSet`: only when `sets > 1`, decrement
`sets` and pop the last rep and weight; otherwise leave the entry as is. -/
def removeSetEntry (e : WorkoutExercise) : WorkoutExercise :=
  if 1 < e.sets then
    ⟨e.exercise_id, e.exercise_name, e.sets - 1,
      e.reps.dropLast, e.weight.dropLast, e.rest_seconds, e.notes⟩
  else e

/-- The handler `removeSet` on the form state. -/
def removeSet (i : ℕ) (s : List WorkoutExercise) : List WorkoutExercise :=
  listModify s i removeSetEntry

/-- Which parallel array `updateSetData` writes. -/
inductive SetField where
  | reps
  | weight
deriving DecidableEq

/-- The per-entry effect of `updateSetData`: write `value` at `setIndex`
into the chosen parallel array.  The form invokes it only for rendered set
rows (`setIndex < sets`), which under the length invariant is an in-bounds
JS array store. -/
def updateSetDataEntry (setIndex : ℕ) (field : SetField) (value : ℚ)
    (e : WorkoutExercise) : WorkoutExercise :=
  match field with
  | SetField.reps =>
      ⟨e.exercise_id, e.exercise_name, e.sets, e.reps.set setIndex value,
        e.weight, e.rest_seconds, e.notes⟩
  | SetField.weight =>
      ⟨e.exercise_id, e.exercise_name, e.sets, e.reps,
        e.weight.set setIndex value, e.rest_seconds, e.notes⟩

/-- The handler `updateSetData` on the form state. -/
def updateSetData (exerciseIndex setIndex : ℕ) (field : SetField) (value : ℚ)
    (s : List WorkoutExercise) : List WorkoutExercise :=
  listModify s exerciseIndex (updateSetDataEntry setIndex field value)

/-- Form states reachable from the empty exercise list by the operations
the rendered UI can trigger: `addExercise` for any catalog exercise, and
`addSet` / `removeSet` / `updateSetData` through the buttons and inputs
rendered per existing exercise (index in range) and per rendered set row
(`setIndex < sets`). -/
inductive FormReachable : List WorkoutExercise → Prop where
  | empty : FormReachable []
  | addExerciseStep (exercise : Exercise) {s : List WorkoutExercise} :
      FormReachable s → FormReachable (addExercise exercise s)
  | addSetStep (i : ℕ) {s : List WorkoutExercise} :
      FormReachable s → i < s.length → FormReachable (addSet i s)
  | removeSetStep (i : ℕ) {s : List WorkoutExercise} :
      FormReachable s → i < s.length → FormReachable (removeSet i s)
  | updateSetDataStep (i j : ℕ) (field : SetField) (value : ℚ)
      (e : WorkoutExercise) {s : List WorkoutExercise} :
      FormReachable s → s[i]? = some e → j < e.sets →
      FormReachable (updateSetData i j field value s)

/-- The parallel-array invariant of one form entry. -/
def entryInv (e : WorkoutExercise) : Prop :=
  e.reps.length = e.sets ∧ e.weight.length = e.sets ∧ 1 ≤ e.sets

/-! ## WorkoutForm component: save path -/

/-- A persisted `workout_exercises` row (the columns `handleSave` inserts). -/
structure WERow where
  exercise_id : String
  sets : ℕ
  reps : List ℚ
  weight : List ℚ
  rest_seconds : ℚ
  notes : String
deriving DecidableEq

/-- The row `handleSave` inserts for one in-memory entry. -/
def toRow (we : WorkoutExercise) : WERow :=
  ⟨we.exercise_id, we.sets, we.reps, we.weight, we.rest_seconds, we.notes⟩

/-- Which of the write requests issued by `handleSave` (update mode)
succeed. -/
structure SaveEnv where
  updateOk : Bool
  deleteOk : Bool
  insertOk : Bool

/-- The kinds of write requests `handleSave` issues in update mode. -/
inductive DbWrite where
  | updateWorkout
  | deleteWorkoutExercises
  | insertWorkoutExercises
deriving DecidableEq

/-- JS `name.trim()` as a character list (drop leading and trailing
whitespace). -/
def jsTrim (s : String) : List Char :=
  ((s.data.dropWhile Char.isWhitespace).reverse.dropWhile Char.isWhitespace).reverse

/-- The ordered list of write requests issued by `handleSave` in update
mode: guard on the trimmed name, then update the workout row, delete all
existing `workout_exercises` rows, and (when the in-memory list is
nonempty) insert the in-memory rows.  A failed request throws to the
`catch`, so nothing is issued after the first failure. -/
def saveUpdateTrace (env : SaveEnv) (nm : String) (exs : List WorkoutExercise) : List DbWrite :=
  if jsTrim nm = [] then []
  else if env.updateOk = false then [DbWrite.updateWorkout]
  else if env.deleteOk = false then
    [DbWrite.updateWorkout, DbWrite.deleteWorkoutExercises]
  else if 0 < exs.length then
    [DbWrite.updateWorkout, DbWrite.deleteWorkoutExercises, DbWrite.insertWorkoutExercises]
  else [DbWrite.updateWorkout, DbWrite.deleteWorkoutExercises]

/-- The `workout_exercises` rows of the edited workout after `handleSave`
ran in update mode against `env`: a successful delete clears the old rows,
a successful insert writes the in-memory rows, and a failed request leaves
the store as the previous request left it. -/
def saveUpdateFinalRows (env : SaveEnv) (nm : String) (oldRows : List WERow)
    (exs : List WorkoutExercise) : List WERow :=
  if jsTrim nm = [] then oldRows
  else if env.updateOk = false then oldRows
  else if env.deleteOk = false then oldRows
  else if 0 < exs.length then
    if env.insertOk then exs.map toRow else []
  else []

/-! ## WorkoutForm component: exercise picker filter -/

/-- JS `String.prototype.toLowerCase`, character-wise (exact on the ASCII
catalog data). -/
def jsToLower (s : String) : String :=
  ⟨s.data.map Char.toLower⟩

/-- Does `hay` start with `needle` (character lists)? -/
def seqStartsWith : List Char → List Char → Bool
  | _, [] => true
  | [], _ :: _ => false
  | a :: hay, b :: needle => (a == b) && seqStartsWith hay needle

/-- JS `String.prototype.includes`: scan for an occurrence of `needle`
starting at each position of `hay`. -/
def seqContains : List Char → List Char → Bool
  | [], needle => seqStartsWith [] needle
  | a :: hay, needle => seqStartsWith (a :: hay) needle || seqContains hay needle

/-- JS `hay.includes(needle)` on strings. -/
def jsIncludes (hay needle : String) : Bool :=
  seqContains hay.data needle.data

/-- The picker's `filteredExercises`: keep an exercise when its lowercased
name or lowercased category contains the lowercased search term. -/
def filteredExercises (term : String) (exs : List Exercise) : List Exercise :=
  exs.filter (fun e =>
    jsIncludes (jsToLower e.name) (jsToLower term)
      || jsIncludes (jsToLower e.category) (jsToLower term))

/-! ## Helper lemmas -/

/-- On finite operands with a nonzero divisor, `getProgress` is the exact
minimum with 100. -/
theorem getProgress_eq_min (g : Goal) (ht : g.target_value ≠ 0) :
    getProgress g = JNum.num (min (g.current_value / g.target_value * 100) 100) := by
  simp [getProgress, jsDiv, ht, jsMulPos, jsMin]

/-- The falsy-guard on an integer duration is the identity. -/
theorem jsOrZeroInt_eq (d : ℤ) : jsOrZeroInt d = d := by
  unfold jsOrZeroInt
  split <;> omega

/-! ## C1: goal progress formula -/

/-- C1 counterexample: at the goal `current = -50, target = 200` (target
nonzero) the code computes `-25`, while the claimed
`clamp(current/target*100, 0, 100)` is `0`; the displayed progress is
below 0, refuting the clamped-at-zero claim. -/
theorem getProgress_clamp_counterexample :
    (200 : ℚ) ≠ 0
    ∧ getProgress ⟨200, -50, false⟩ = JNum.num (-25)
    ∧ clampSpec (-50) 200 = 0
    ∧ getProgress ⟨200, -50, false⟩ ≠ JNum.num (clampSpec (-50) 200) := by
  have h1 : getProgress ⟨200, -50, false⟩ = JNum.num (-25) := by
    rw [getProgress_eq_min ⟨200, -50, false⟩ (by norm_num)]
    norm_num
  have h2 : clampSpec (-50) 200 = 0 := by
    unfold clampSpec
    norm_num
  refine ⟨by norm_num, h1, h2, ?_⟩
  rw [h1, h2]
  simp only [ne_eq, JNum.num.injEq]
  norm_num

/-- C1 (amended): for every goal with nonzero target value `t` and current
value `c`, `getProgress` equals `min(c/t*100, 100)` with no clamping below
at 0; it coincides with `clamp(c/t*100, 0, 100)` whenever `c/t` is
nonnegative (in particular for `c = 50, t = 200` it is 25 and for
`c = 250, t = 200` it is 100), but for a negative current value the result
is negative. -/
theorem getProgress_min_form (c t : ℚ) (a : Bool) (ht : t ≠ 0) :
    getProgress ⟨t, c, a⟩ = JNum.num (min (c / t * 100) 100)
    ∧ (0 ≤ c / t → getProgress ⟨t, c, a⟩ = JNum.num (clampSpec c t))
    ∧ getProgress ⟨200, 50, false⟩ = JNum.num 25
    ∧ getProgress ⟨200, 250, false⟩ = JNum.num 100 := by
  have hmin : getProgress ⟨t, c, a⟩ = JNum.num (min (c / t * 100) 100) :=
    getProgress_eq_min ⟨t, c, a⟩ ht
  refine ⟨hmin, ?_, ?_, ?_⟩
  · intro hc
    rw [hmin]
    unfold clampSpec
    have h0 : (0 : ℚ) ≤ min (c / t * 100) 100 := by
      have : (0 : ℚ) ≤ c / t * 100 := by positivity
      exact le_min this (by norm_num)
    rw [max_eq_right h0]
  · rw [getProgress_eq_min ⟨200, 50, false⟩ (by norm_num)]
    norm_num
  · rw [getProgress_eq_min ⟨200, 250, false⟩ (by norm_num)]
    norm_num

/-- C1 witness: the amended theorem applied at `c = 50, t = 200`. -/
theorem getProgress_min_form_witness :
    getProgress ⟨200, 50, false⟩ = JNum.num 25 :=
  (getProgress_min_form 50 200 false (by norm_num)).2.2.1

/-! ## C2: zero target does not crash the progress computation -/

/-- C2: for a goal with target value 0 and positive current value the
progress computation is total and returns a defined value: the division
yields `Infinity`, the product stays `Infinity`, and `Math.min` with 100
returns the finite 100.  No step of the computation throws. -/
theorem getProgress_zero_target_defined (c : ℚ) (a : Bool) (hc : 0 < c) :
    getProgress ⟨0, c, a⟩ = JNum.num 100 := by
  simp [getProgress, jsDiv, hc, hc.ne', jsMulPos, jsMin]

/-- C2 witness: the theorem applied at `current = 5, target = 0`. -/
theorem getProgress_zero_target_witness :
    getProgress ⟨0, 5, false⟩ = JNum.num 100 :=
  getProgress_zero_target_defined 5 false (by norm_num)

/-! ## C6: totalMinutes is the sum of durations -/

/-- C6: for every fetched workout list, the Dashboard `totalMinutes` stat
is the sum of the workouts' `duration_minutes`, and it is 0 on the empty
list. -/
theorem totalMinutes_eq_sum (ws : List DWorkout) :
    totalMinutes ws = (ws.map (fun w => w.duration_minutes)).sum
    ∧ totalMinutes [] = 0 := by
  constructor
  · simp [totalMinutes, List.sum_eq_foldl, List.foldl_map, jsOrZeroInt_eq]
  · rfl

/-! ## C7: addExercise seeds 3 sets of 10 reps at weight 0 -/

/-- C7: `addExercise` appends exactly one entry, whose `sets` is 3, whose
reps array is `[10, 10, 10]` and whose weight array is `[0, 0, 0]`, and
every previously added entry is unchanged at its index. -/
theorem addExercise_seeds (exercise : Exercise) (s : List WorkoutExercise) :
    addExercise exercise s
      = s ++ [⟨exercise.id, exercise.name, 3, [10, 10, 10], [0, 0, 0], 60, ""⟩]
    ∧ (addExercise exercise s).length = s.length + 1
    ∧ (∀ i : ℕ, i < s.length → (addExercise exercise s)[i]? = s[i]?)
    ∧ (addExercise exercise s).getLast?
      = some ⟨exercise.id, exercise.name, 3, [10, 10, 10], [0, 0, 0], 60, ""⟩ := by
  refine ⟨rfl, by simp [addExercise], ?_, ?_⟩
  · intro i hi
    simp [addExercise, List.getElem?_append, hi]
  · simp [addExercise, mkWorkoutExercise, List.getLast?_concat]

/-- C7 witness: the theorem applied to a one-entry form state at index 0. -/
theorem addExercise_seeds_witness :
    (addExercise ⟨"e1", "Push-ups", "Bodyweight", ["chest"]⟩
        [⟨"e0", "Squats", 1, [8], [100], 60, ""⟩])[0]?
      = [(⟨"e0", "Squats", 1, [8], [100], 60, ""⟩ : WorkoutExercise)][0]?
    ∧ (addExercise ⟨"e1", "Push-ups", "Bodyweight", ["chest"]⟩
        [⟨"e0", "Squats", 1, [8], [100], 60, ""⟩]).getLast?
      = some ⟨"e1", "Push-ups", 3, [10, 10, 10], [0, 0, 0], 60, ""⟩ :=
  ⟨(addExercise_seeds ⟨"e1", "Push-ups", "Bodyweight", ["chest"]⟩
      [⟨"e0", "Squats", 1, [8], [100], 60, ""⟩]).2.2.1 0 (by decide),
   (addExercise_seeds ⟨"e1", "Push-ups", "Bodyweight", ["chest"]⟩
      [⟨"e0", "Squats", 1, [8], [100], 60, ""⟩]).2.2.2⟩
/-! ## C3: parallel arrays track the set count -/

/-- A pointwise-preserved property is preserved by `listModify`. -/
theorem listModify_preserves {α : Type} {P : α → Prop} (f : α → α)
    (hf : ∀ e, P e → P (f e)) :
    ∀ (s : List α) (i : ℕ), (∀ e ∈ s, P e) → ∀ e ∈ listModify s i f, P e := by
  intro s
  induction s with
  | nil => intro i h e he; simp [listModify] at he
  | cons a rest ih =>
    intro i h e he
    cases i with
    | zero =>
      simp only [listModify] at he
      rcases List.mem_cons.mp he with he | he
      · exact he ▸ hf a (h a (List.mem_cons_self a rest))
      · exact h e (List.mem_cons_of_mem a he)
    | succ n =>
      simp only [listModify] at he
      rcases List.mem_cons.mp he with he | he
      · exact he ▸ h a (List.mem_cons_self a rest)
      · exact ih n (fun x hx => h x (List.mem_cons_of_mem a hx)) e he

/-- Applying `listModify` is the identity when `f` fixes the element at the index. -/
theorem listModify_eq_self {α : Type} (f : α → α) :
    ∀ (s : List α) (i : ℕ), (∀ e, s[i]? = some e → f e = e) → listModify s i f = s := by
  intro s
  induction s with
  | nil => intro i _; rfl
  | cons a rest ih =>
    intro i h
    cases i with
    | zero =>
      simp only [listModify]
      rw [h a (by simp)]
    | succ n =>
      simp only [listModify]
      rw [ih n (fun e he => h e (by simpa using he))]

/-- The seeded entry satisfies the parallel-array invariant. -/
theorem entryInv_mkWorkoutExercise (exercise : Exercise) :
    entryInv (mkWorkoutExercise exercise) := by
  refine ⟨rfl, rfl, ?_⟩
  simp [mkWorkoutExercise]

/-- The operation `addSetEntry` preserves the parallel-array invariant. -/
theorem entryInv_addSetEntry (e : WorkoutExercise) (h : entryInv e) :
    entryInv (addSetEntry e) := by
  obtain ⟨hr, hw, hs⟩ := h
  refine ⟨?_, ?_, ?_⟩
  · show (e.reps ++ [jsOrFallback e.reps.getLast? 10]).length = e.sets + 1
    simp [hr]
  · show (e.weight ++ [jsOrFallback e.weight.getLast? 0]).length = e.sets + 1
    simp [hw]
  · show 1 ≤ e.sets + 1
    omega

/-- The operation `removeSetEntry` preserves the parallel-array invariant. -/
theorem entryInv_removeSetEntry (e : WorkoutExercise) (h : entryInv e) :
    entryInv (removeSetEntry e) := by
  obtain ⟨hr, hw, hs⟩ := h
  by_cases hgt : 1 < e.sets
  · simp only [removeSetEntry, if_pos hgt]
    refine ⟨?_, ?_, ?_⟩
    · show e.reps.dropLast.length = e.sets - 1
      simp [List.length_dropLast, hr]
    · show e.weight.dropLast.length = e.sets - 1
      simp [List.length_dropLast, hw]
    · show 1 ≤ e.sets - 1
      omega
  · simp only [removeSetEntry, if_neg hgt]
    exact ⟨hr, hw, hs⟩

/-- The operation `updateSetDataEntry` preserves the parallel-array invariant. -/
theorem entryInv_updateSetDataEntry (j : ℕ) (field : SetField) (v : ℚ)
    (e : WorkoutExercise) (h : entryInv e) :
    entryInv (updateSetDataEntry j field v e) := by
  obtain ⟨hr, hw, hs⟩ := h
  cases field with
  | reps =>
    refine ⟨?_, hw, hs⟩
    show (e.reps.set j v).length = e.sets
    simp [hr]
  | weight =>
    refine ⟨hr, ?_, hs⟩
    show (e.weight.set j v).length = e.sets
    simp [hw]

/-- C3: every form state reachable from the empty exercise list through
`addExercise`, `addSet`, `removeSet` and `updateSetData` keeps, for every
entry, `reps.length = sets`, `weight.length = sets` and `sets ≥ 1`; and
`removeSet` on an entry whose `sets` is 1 leaves the state unchanged. -/
theorem workoutForm_parallel_arrays_invariant :
    (∀ s, FormReachable s → ∀ e ∈ s, entryInv e)
    ∧ (∀ (i : ℕ) (s : List WorkoutExercise) (e : WorkoutExercise),
        s[i]? = some e → e.sets = 1 → removeSet i s = s) := by
  constructor
  · intro s hs
    induction hs with
    | empty => intro e he; cases he
    | addExerciseStep exercise _ ih =>
      intro e he
      simp only [addExercise] at he
      rcases List.mem_append.mp he with he | he
      · exact ih e he
      · have hee : e = mkWorkoutExercise exercise := by simpa using he
        exact hee ▸ entryInv_mkWorkoutExercise exercise
    | addSetStep i _ _ ih =>
      exact listModify_preserves addSetEntry entryInv_addSetEntry _ i ih
    | removeSetStep i _ _ ih =>
      exact listModify_preserves removeSetEntry entryInv_removeSetEntry _ i ih
    | updateSetDataStep i j field value e _ _ _ ih =>
      exact listModify_preserves (updateSetDataEntry j field value)
        (entryInv_updateSetDataEntry j field value) _ i ih
  · intro i s e hget hone
    refine listModify_eq_self removeSetEntry s i ?_
    intro x hx
    rw [hget] at hx
    obtain rfl : e = x := Option.some_inj.mp hx
    unfold removeSetEntry
    rw [hone]
    simp

/-- C3 witness: the invariant theorem applied to the reachable one-exercise
state `addExercise pushups []`, and the no-op part applied to a one-set
entry. -/
theorem workoutForm_invariant_witness :
    entryInv (mkWorkoutExercise ⟨"e1", "Push-ups", "Bodyweight", ["chest"]⟩)
    ∧ removeSet 0 [⟨"e1", "Push-ups", 1, [10], [0], 60, ""⟩]
      = [⟨"e1", "Push-ups", 1, [10], [0], 60, ""⟩] :=
  ⟨workoutForm_parallel_arrays_invariant.1
      (addExercise ⟨"e1", "Push-ups", "Bodyweight", ["chest"]⟩ [])
      (FormReachable.addExerciseStep ⟨"e1", "Push-ups", "Bodyweight", ["chest"]⟩
        FormReachable.empty)
      (mkWorkoutExercise ⟨"e1", "Push-ups", "Bodyweight", ["chest"]⟩)
      (by simp [addExercise]),
   workoutForm_parallel_arrays_invariant.2 0
      [⟨"e1", "Push-ups", 1, [10], [0], 60, ""⟩]
      ⟨"e1", "Push-ups", 1, [10], [0], 60, ""⟩ rfl rfl⟩

/-! ## C4: delete-then-insert ordering and missing rollback -/

/-- C4: in update mode the only trace containing the child-row insert is
`[updateWorkout, deleteWorkoutExercises, insertWorkoutExercises]`, so the
delete of the existing `workout_exercises` rows is always issued strictly
before the insert; and when the update and delete succeed, the in-memory
list is nonempty and the insert fails, the trace still ends at that insert
(no compensating write is issued) and the workout is left with zero
`workout_exercises` rows. -/
theorem handleSave_delete_before_insert (env : SaveEnv) (nm : String)
    (oldRows : List WERow) (exs : List WorkoutExercise)
    (hname : jsTrim nm ≠ []) (hupd : env.updateOk = true)
    (hdel : env.deleteOk = true) (hins : env.insertOk = false)
    (hexs : exs ≠ []) :
    (∀ (env2 : SaveEnv) (nm2 : String) (exs2 : List WorkoutExercise),
        DbWrite.insertWorkoutExercises ∈ saveUpdateTrace env2 nm2 exs2 →
        saveUpdateTrace env2 nm2 exs2
          = [DbWrite.updateWorkout, DbWrite.deleteWorkoutExercises,
             DbWrite.insertWorkoutExercises])
    ∧ saveUpdateTrace env nm exs
      = [DbWrite.updateWorkout, DbWrite.deleteWorkoutExercises,
         DbWrite.insertWorkoutExercises]
    ∧ saveUpdateFinalRows env nm oldRows exs = [] := by
  have hlen : 0 < exs.length := List.length_pos.mpr hexs
  refine ⟨?_, ?_, ?_⟩
  · intro env2 nm2 exs2 hmem
    unfold saveUpdateTrace at hmem ⊢
    split at hmem
    · simp at hmem
    · split at hmem
      · simp at hmem
      · split at hmem
        · simp at hmem
        · split at hmem
          · simp [*]
          · simp at hmem
  · unfold saveUpdateTrace
    rw [if_neg hname, hupd, if_neg (by simp), hdel, if_neg (by simp), if_pos hlen]
  · unfold saveUpdateFinalRows
    rw [if_neg hname, hupd, if_neg (by simp), hdel, if_neg (by simp), if_pos hlen,
      hins, if_neg (by simp)]

/-- C4 witness: the theorem applied to a concrete failing-insert run. -/
theorem handleSave_delete_before_insert_witness :
    saveUpdateTrace ⟨true, true, false⟩ "Leg day"
        [⟨"e1", "Lunges", 1, [10], [0], 60, ""⟩]
      = [DbWrite.updateWorkout, DbWrite.deleteWorkoutExercises,
         DbWrite.insertWorkoutExercises]
    ∧ saveUpdateFinalRows ⟨true, true, false⟩ "Leg day"
        [⟨"e1", 3, [10, 10, 10], [0, 0, 0], 60, ""⟩]
        [⟨"e1", "Lunges", 1, [10], [0], 60, ""⟩]
      = [] :=
  ⟨(handleSave_delete_before_insert ⟨true, true, false⟩ "Leg day"
      [⟨"e1", 3, [10, 10, 10], [0, 0, 0], 60, ""⟩]
      [⟨"e1", "Lunges", 1, [10], [0], 60, ""⟩]
      (by decide) rfl rfl rfl (by simp)).2.1,
   (handleSave_delete_before_insert ⟨true, true, false⟩ "Leg day"
      [⟨"e1", 3, [10, 10, 10], [0, 0, 0], 60, ""⟩]
      [⟨"e1", "Lunges", 1, [10], [0], 60, ""⟩]
      (by decide) rfl rfl rfl (by simp)).2.2⟩

/-! ## C5: weekly-workout boundary -/

/-- C5: the Dashboard weekly count is the length of the list filtered by
the inclusive `date >= now - 7 days` comparison; a workout dated exactly
7 days before `now` passes the filter, and one dated 8 days before `now`
does not. -/
theorem dashboard_weekly_boundary (now : ℤ) (ws : List DWorkout) (w : DWorkout)
    (hmem : w ∈ ws) :
    weeklyWorkouts now ws = (ws.filter (inWeeklyRange now)).length
    ∧ (w.date = now - 7 * msPerDay →
        inWeeklyRange now w = true ∧ w ∈ ws.filter (inWeeklyRange now))
    ∧ (w.date = now - 8 * msPerDay →
        inWeeklyRange now w = false ∧ w ∉ ws.filter (inWeeklyRange now)) := by
  refine ⟨rfl, ?_, ?_⟩
  · intro h7
    have hin : inWeeklyRange now w = true := by
      simp [inWeeklyRange, h7]
    exact ⟨hin, List.mem_filter.mpr ⟨hmem, hin⟩⟩
  · intro h8
    have hout : inWeeklyRange now w = false := by
      simp only [inWeeklyRange, h8, msPerDay, decide_eq_false_iff_not]
      omega
    refine ⟨hout, fun hcontra => ?_⟩
    have := (List.mem_filter.mp hcontra).2
    rw [hout] at this
    cases this

/-- C5 witness: the theorem applied at `now = 0` to a workout dated exactly
seven days earlier. -/
theorem dashboard_weekly_boundary_witness :
    inWeeklyRange 0 ⟨-604800000, 30⟩ = true
    ∧ (⟨-604800000, 30⟩ : DWorkout) ∈
        [(⟨-604800000, 30⟩ : DWorkout)].filter (inWeeklyRange 0) :=
  (dashboard_weekly_boundary 0 [⟨-604800000, 30⟩] ⟨-604800000, 30⟩
    (by simp)).2.1 (by norm_num [msPerDay])

/-! ## C8: case-insensitive substring filter -/

/-- The prefix scan agrees with `List.IsPrefix`. -/
theorem seqStartsWith_iff (hay needle : List Char) :
    seqStartsWith hay needle = true ↔ needle <+: hay := by
  induction hay generalizing needle with
  | nil =>
    cases needle with
    | nil => simp [seqStartsWith]
    | cons b needle => simp [seqStartsWith, List.prefix_nil]
  | cons a hay ih =>
    cases needle with
    | nil => simp [seqStartsWith, List.nil_prefix]
    | cons b needle =>
      simp only [seqStartsWith, Bool.and_eq_true, beq_iff_eq, ih,
        List.cons_prefix_cons]
      exact and_congr_left (fun _ => eq_comm)

/-- The containment scan agrees with `List.IsInfix`. -/
theorem seqContains_iff (hay needle : List Char) :
    seqContains hay needle = true ↔ needle <:+: hay := by
  induction hay with
  | nil => simp [seqContains, seqStartsWith_iff, List.infix_nil, List.prefix_nil]
  | cons a hay ih =>
    simp [seqContains, Bool.or_eq_true, seqStartsWith_iff, ih,
      List.infix_cons_iff]

/-- C8: an exercise of the fetched catalog appears in the picker's filtered
list exactly when the lowercased search term occurs as a substring of the
lowercased exercise name or of the lowercased category. -/
theorem filteredExercises_iff (term : String) (exs : List Exercise)
    (e : Exercise) (hmem : e ∈ exs) :
    e ∈ filteredExercises term exs ↔
      ((jsToLower term).data <:+: (jsToLower e.name).data
        ∨ (jsToLower term).data <:+: (jsToLower e.category).data) := by
  simp [filteredExercises, List.mem_filter, hmem, jsIncludes,
    Bool.or_eq_true, seqContains_iff]

/-- C8 witness: the theorem applied to the term "push" and the Push-ups
catalog row. -/
theorem filteredExercises_iff_witness :
    (⟨"1", "Push-ups", "Bodyweight", ["chest"]⟩ : Exercise) ∈
      filteredExercises "push" [⟨"1", "Push-ups", "Bodyweight", ["chest"]⟩] :=
  (filteredExercises_iff "push" [⟨"1", "Push-ups", "Bodyweight", ["chest"]⟩]
      ⟨"1", "Push-ups", "Bodyweight", ["chest"]⟩ (by simp)).mpr
    (Or.inl (by decide))

/-! ## C9: failed dashboard fetches and the stats state -/

/-- C9 counterexample: a load in which the workouts and goals fetches
succeed (one workout of 30 minutes dated `now`, no active goals) but the
recent-workouts fetch fails.  A fetch of the load failed, yet the stats
state does not retain its zero-initialized last-known value: `setStats`
already ran before the failing fetch. -/
theorem dashboard_stats_retention_counterexample :
    loadDashboardStats 0 ⟨some [⟨0, 30⟩], some [], false⟩ zeroStats ≠ zeroStats := by
  unfold loadDashboardStats computeStats zeroStats totalMinutes weeklyWorkouts
  intro h
  have := congrArg DashStats.totalWorkouts h
  simp at this

/-- C9 (amended): if the workouts fetch or the goals fetch fails, the error
path only logs and the stats state retains its previous value; if both
succeed, the stats are set to the values computed from the fetched rows,
regardless of whether the later recent-workouts fetch succeeds (so a
failure of that fetch leaves the freshly computed, not the last-known,
stats).  In no case are stats computed from a failed fetch's data. -/
theorem dashboard_stats_on_failure (now : ℤ) (env : DashEnv) (prev : DashStats) :
    (env.workoutsRes = none ∨ env.goalsRes = none →
      loadDashboardStats now env prev = prev)
    ∧ (∀ (ws : List DWorkout) (gs : List Goal),
        env.workoutsRes = some ws → env.goalsRes = some gs →
        loadDashboardStats now env prev = computeStats now ws gs) := by
  constructor
  · intro h
    unfold loadDashboardStats
    cases henv : env.workoutsRes with
    | none => rfl
    | some ws =>
      cases hgenv : env.goalsRes with
      | none => rfl
      | some gs =>
        rcases h with h | h
        · rw [henv] at h; simp at h
        · rw [hgenv] at h; simp at h
  · intro ws gs hws hgs
    unfold loadDashboardStats
    rw [hws, hgs]

/-- C9 witness: the amended theorem applied to a run whose workouts fetch
fails. -/
theorem dashboard_stats_on_failure_witness :
    loadDashboardStats 0 ⟨none, some [], true⟩ zeroStats = zeroStats :=
  (dashboard_stats_on_failure 0 ⟨none, some [], true⟩ zeroStats).1 (Or.inl rfl)

/-! ## C10: addSet copies the last set's data -/

/-- C10: on an entry with at least one set and nonempty parallel arrays,
`addSet` increments the set count and appends a copy of the current last
rep and last weight; the fixed placeholders 10 and 0 are used only when
the corresponding array is empty or its last element is falsy (zero). -/
theorem addSet_copies_last (e : WorkoutExercise) (hsets : 1 ≤ e.sets) :
    (∀ (i : ℕ) (s : List WorkoutExercise), addSet i s = listModify s i addSetEntry)
    ∧ (addSetEntry e).sets = e.sets + 1
    ∧ (∀ v : ℚ, e.reps.getLast? = some v → v ≠ 0 →
        (addSetEntry e).reps = e.reps ++ [v])
    ∧ (∀ v : ℚ, e.weight.getLast? = some v → v ≠ 0 →
        (addSetEntry e).weight = e.weight ++ [v])
    ∧ (e.reps = [] ∨ e.reps.getLast? = some 0 →
        (addSetEntry e).reps = e.reps ++ [10])
    ∧ (e.weight = [] ∨ e.weight.getLast? = some 0 →
        (addSetEntry e).weight = e.weight ++ [0]) := by
  refine ⟨fun i s => rfl, rfl, ?_, ?_, ?_, ?_⟩
  · intro v hv hv0
    show e.reps ++ [jsOrFallback e.reps.getLast? 10] = e.reps ++ [v]
    rw [hv]
    simp [jsOrFallback, hv0]
  · intro v hv hv0
    show e.weight ++ [jsOrFallback e.weight.getLast? 0] = e.weight ++ [v]
    rw [hv]
    simp [jsOrFallback, hv0]
  · intro h
    show e.reps ++ [jsOrFallback e.reps.getLast? 10] = e.reps ++ [10]
    rcases h with h | h
    · rw [h]; rfl
    · rw [h]; simp [jsOrFallback]
  · intro h
    show e.weight ++ [jsOrFallback e.weight.getLast? 0] = e.weight ++ [0]
    rcases h with h | h
    · rw [h]; rfl
    · rw [h]; simp [jsOrFallback]

/-- C10 witness: the theorem applied to a two-set entry with last rep 8 and
last weight 135: the new set copies both values. -/
theorem addSet_copies_last_witness :
    (addSetEntry ⟨"e1", "Squats", 2, [8, 8], [135, 135], 60, ""⟩).sets = 3
    ∧ (addSetEntry ⟨"e1", "Squats", 2, [8, 8], [135, 135], 60, ""⟩).reps
      = [8, 8, 8]
    ∧ (addSetEntry ⟨"e1", "Squats", 2, [8, 8], [135, 135], 60, ""⟩).weight
      = [135, 135, 135] :=
  ⟨(addSet_copies_last ⟨"e1", "Squats", 2, [8, 8], [135, 135], 60, ""⟩
      (by norm_num)).2.1,
   (addSet_copies_last ⟨"e1", "Squats", 2, [8, 8], [135, 135], 60, ""⟩
      (by norm_num)).2.2.1 8 rfl (by norm_num),
   (addSet_copies_last ⟨"e1", "Squats", 2, [8, 8], [135, 135], 60, ""⟩
      (by norm_num)).2.2.2.1 135 rfl (by norm_num)⟩
